import Mathlib

/-!
Shallow embedding of the metadata-listing and validation core of the
`dandi` command-line tool (files `dandi/cli/cmd_ls.py` and
`dandi/validate.py`), together with theorems checking the repository's
natural-language specification against this embedding.

Python dynamic values are modelled by the inductive `Value`; Python dicts
that the code manipulates are association lists preserving insertion
order, as Python 3.7+ dicts do.  External collaborators (filesystem stat,
metadata extraction, digest computation, pydantic model validation, yaml
parsing) are opaque: each is supplied as a field of an environment
record, an `Except` value carrying either the collaborator's result or
the name (and message) of the Python exception it raised.
-/

/-- A Python runtime value, restricted to the shapes the listed code
actually manipulates: `None`, booleans, integers, strings, lists/tuples
and string-keyed dicts. -/
inductive Value where
  | vnone : Value
  | bool  : Bool → Value
  | int   : Int → Value
  | str   : String → Value
  | list  : List Value → Value
  | dict  : List (String × Value) → Value

/-- Python truthiness (`bool(v)`): `None`, `False`, `0`, `""`, `[]`, `{}`
are falsy, everything else truthy. -/
def pyTruthy : Value → Bool
  | .vnone   => false
  | .bool b  => b
  | .int n   => n != 0
  | .str s   => s != ""
  | .list vs => !vs.isEmpty
  | .dict ps => !ps.isEmpty

mutual

/-- Python `str(v)`.  Strings print verbatim; containers print as their
`repr`, with elements shown via `repr`. -/
def pyStr : Value → String
  | .vnone   => "None"
  | .bool b  => if b then "True" else "False"
  | .int n   => toString n
  | .str s   => s
  | .list vs => "[" ++ String.intercalate ", " (pyStrListAux vs) ++ "]"
  | .dict ps => "\x7b" ++ String.intercalate ", " (pyStrDictAux ps) ++ "\x7d"

/-- Python `repr(v)`: like `str` except strings gain surrounding quotes. -/
def pyRepr : Value → String
  | .vnone   => "None"
  | .bool b  => if b then "True" else "False"
  | .int n   => toString n
  | .str s   => "\x27" ++ s ++ "\x27"
  | .list vs => "[" ++ String.intercalate ", " (pyStrListAux vs) ++ "]"
  | .dict ps => "\x7b" ++ String.intercalate ", " (pyStrDictAux ps) ++ "\x7d"

/-- `repr` of each element of a list. -/
def pyStrListAux : List Value → List String
  | [] => []
  | v :: vs => pyRepr v :: pyStrListAux vs

/-- `repr` of each `key: value` entry of a dict. -/
def pyStrDictAux : List (String × Value) → List String
  | [] => []
  | (k, v) :: ps => ("\x27" ++ k ++ "\x27: " ++ pyRepr v) :: pyStrDictAux ps

end

example : pyStr (.list [.int 1, .int 2]) = "[1, 2]" := rfl
example : pyStr (.dict [("a", .int 1)]) = "\x7b\x27a\x27: 1\x7d" := rfl

mutual

/-- `flatten_v` from `dandi/cli/cmd_ls.py`: lists/tuples have their items
recursively flattened, stringified and joined with `", "`; dicts have their
items rendered as `"key: value"` strings (values verbatim) and that list of
strings flattened by the same rule (joining a list of strings leaves each
string unchanged, so the join is written directly here; the lemma
`flatten_v_dict_faithful` below checks this against the literal source
shape); any other value is returned unchanged. -/
def flatten_v : Value → Value
  | .list vs => .str (String.intercalate ", " (flattenStrList vs))
  | .dict ps => .str (String.intercalate ", " (ps.map (fun p => p.1 ++ ": " ++ pyStr p.2)))
  | v => v

/-- `map(str, map(flatten_v, v))` over the items of a list. -/
def flattenStrList : List Value → List String
  | [] => []
  | v :: vs => pyStr (flatten_v v) :: flattenStrList vs

end

example : flatten_v (.list [.str "a", .str "b"]) = .str "a, b" := rfl
example : flatten_v (.dict [("x", .int 1), ("y", .int 2)]) = .str "x: 1, y: 2" := rfl

/-- A Python dict with string keys, as an insertion-ordered association
list (Python 3.7+ dict semantics). -/
abbrev PyDict := List (String × Value)

/-- `d.get(k)` / `k in d`: the value at the first (unique) binding of `k`. -/
def PyDict.get : PyDict → String → Option Value
  | [], _ => Option.none
  | p :: rest, k => if p.1 == k then some p.2 else PyDict.get rest k

/-- `d[k] = v`: replace the value at an existing binding of `k` in place,
or append a new binding at the end (Python dict assignment keeps the
original insertion position of an existing key). -/
def PyDict.set : PyDict → String → Value → PyDict
  | [], k, v => [(k, v)]
  | p :: rest, k, v =>
    if p.1 == k then (k, v) :: rest else p :: PyDict.set rest k v

/-- `flatten_meta_to_pyout` from `dandi/cli/cmd_ls.py` (the variant the
pyout path actually calls): iterate the record's entries in order, drop
entries with falsy values entirely, and store `flatten_v` of each kept
value under the unchanged top-level key. -/
def flatten_meta_to_pyout (meta : PyDict) : PyDict :=
  meta.foldl
    (fun out p => if !pyTruthy p.2 then out else PyDict.set out p.1 (flatten_v p.2))
    []

/-- `flatten_meta_to_pyout_v1` from `dandi/cli/cmd_ls.py` (the older
variant, not called by `get_metadata_ls`): like `flatten_meta_to_pyout`,
except an entry whose value is itself a dict is recursively flattened and
each inner key `vf` is promoted to the top-level key `"<f>_<vf>"`.
`v1Fold acc entries` is the loop `for f, v in meta.items(): ...` run with
accumulator `acc`. -/
def v1Fold (acc : PyDict) : List (String × Value) → PyDict
  | [] => acc
  | (f, v) :: rest =>
    if !pyTruthy v then v1Fold acc rest
    else
      match v with
      | .dict ps =>
        v1Fold
          ((v1Fold [] ps).foldl
            (fun a q => PyDict.set a (f ++ "_" ++ q.1) (flatten_v q.2)) acc)
          rest
      | w => v1Fold (PyDict.set acc f (flatten_v w)) rest

/-- Entry point of the older flattener. -/
def flatten_meta_to_pyout_v1 (meta : PyDict) : PyDict :=
  v1Fold [] meta

example :
    flatten_meta_to_pyout [("outer", .dict [("a", .int 1), ("b", .int 2)])]
      = [("outer", .str "a: 1, b: 2")] := rfl

example :
    flatten_meta_to_pyout_v1 [("outer", .dict [("a", .int 1), ("b", .int 2)])]
      = [("outer_a", .int 1), ("outer_b", .int 2)] := by
  simp [flatten_meta_to_pyout_v1, v1Fold, pyTruthy, PyDict.set, flatten_v]

/-- The error ledger of `ls`: `errors = defaultdict(list)` mapping a
failure kind (the exception's runtime type name, or `"Empty record"`) to
the list of affected assets, in insertion order. -/
abbrev Ledger := List (String × List Value)

/-- `errors[kind].append(asset)` on a `defaultdict(list)`. -/
def ledgerAdd (kind : String) (asset : Value) : Ledger → Ledger
  | [] => [(kind, [asset])]
  | p :: rest =>
    if p.1 == kind then (p.1, p.2 ++ [asset]) :: rest
    else p :: ledgerAdd kind asset rest

/-- The list of assets recorded under a kind (empty when absent). -/
def ledgerGet : Ledger → String → List Value
  | [], _ => []
  | p :: rest, kind => if p.1 == kind then p.2 else ledgerGet rest kind

/-- `rec.get("errors", 0)`: the record's error counter.  The code only
ever stores the integers written by `_add_exc_error`, so a non-integer
value never occurs; it is read as 0 here. -/
def errCount (rec : PyDict) : Int :=
  match rec.get "errors" with
  | some (.int n) => n
  | _ => 0

/-- `_add_exc_error` from `dandi/cli/cmd_ls.py`: append the asset to the
ledger under the exception's runtime type name and increment the record's
`errors` counter (`rec["errors"] = rec.get("errors", 0) + 1`). -/
def _add_exc_error (asset : Value) (rec : PyDict) (errors : Ledger)
    (excName : String) : PyDict × Ledger :=
  let errors := ledgerAdd excName asset errors
  (PyDict.set rec "errors" (.int (errCount rec + 1)), errors)

/-- The `async_keys` computation in `ls`:
`async_keys = set(all_fields)`, intersected with `fields` when a field
restriction was given, then `difference(common_fields)`.  Python's
`tuple(set)` has arbitrary order; this embedding fixes the order of
`all_fields` (deduplicated), which is observationally irrelevant: the
only order-sensitive use is the comparison `list(keys) != ["nwb_version"]`,
which distinguishes exactly the singleton. -/
def computeAsyncKeys (allFields : List String) (fields : Option (List String))
    (commonFields : List String) : List String :=
  let s := allFields.dedup
  let s := match fields with
    | some fs => s.filter (fun k => decide (k ∈ fs))
    | Option.none => s
  s.filter (fun k => decide (k ∉ commonFields))

/-- The external collaborators consulted while resolving one local path
asset, each either returning a result or raising a Python exception,
modelled by `Except excTypeName result`:
* `isdir`: `os.path.isdir(path)` (false for nonexistent paths);
* `stat`: `os.stat(path).st_size`, e.g. `.error "FileNotFoundError"` for
  a nonexistent path;
* `meta`: the metadata-extraction pass of `get_metadata_ls`'s closure —
  the digest computation plus `nwb2asset`/`get_metadata`/
  `Dandiset(...).metadata` (which of them runs depends on the requested
  schema and on a zarr extension, but all are opaque externals producing
  one field map, so they are abstracted as a single collaborator);
* `nwbVersion`: `get_nwb_version(path)`. -/
structure AssetEnv where
  isdir : Bool
  stat : Except String Int
  meta : Except String PyDict
  nwbVersion : Except String Value

/-- Result of invoking the closure returned by `get_metadata_ls`:
the field map it returns, the ledger after it ran, and whether the
metadata-extraction collaborator and `get_nwb_version` were invoked. -/
structure FnResult where
  outRec : PyDict
  errors : Ledger
  metaCalled : Bool
  nwbCalled : Bool

/-- The second half of the closure `fn` built by `get_metadata_ls`,
given the field map and ledger `r1` produced by the extraction pass:
keep only the entries whose key is in `keys`
(`rec = {k: v for k, v in rec.items() if k in keys}`); then, for a
non-directory whose record still lacks both `nwb_version` and
`bids_schema_version` while `keys` requests `nwb_version`, fetch
`get_nwb_version` inside its own `try/except`. -/
def fnFinish (path : String) (keys : List String) (env : AssetEnv)
    (metaCalled : Bool) (r1 : PyDict × Ledger) : FnResult :=
  let rec2 : PyDict := r1.1.filter (fun p => keys.contains p.1)
  if !env.isdir && (PyDict.get rec2 "nwb_version").isNone
      && (PyDict.get rec2 "bids_schema_version").isNone
      && (!keys.isEmpty && keys.contains "nwb_version") then
    match env.nwbVersion with
    | .ok v => ⟨PyDict.set rec2 "nwb_version" v, r1.2, metaCalled, true⟩
    | .error exc =>
      let r := _add_exc_error (.str path) rec2 r1.2 exc
      ⟨r.1, r.2, metaCalled, true⟩
  else ⟨rec2, r1.2, metaCalled, false⟩

/-- The closure `fn` built by `get_metadata_ls` in `dandi/cli/cmd_ls.py`.
`keys` is `async_keys` (`ls` only builds the closure when that tuple is
nonempty, and never passes `None`).  Steps, as in the source: unless
`list(keys) == ["nwb_version"]`, run the extraction collaborator inside
`try/except` (`_add_exc_error` on failure) and, when `flatten`, apply
`flatten_meta_to_pyout`; the key filtering and the `nwb_version`
fallback then follow in `fnFinish`. -/
def get_metadata_ls_fn (path : String) (keys : List String) (flatten : Bool)
    (env : AssetEnv) (errors0 : Ledger) : FnResult :=
  let metaCalled := keys != ["nwb_version"]
  let r1 : PyDict × Ledger :=
    if metaCalled then
      let base : PyDict × Ledger :=
        match env.meta with
        | .ok m => (m, errors0)
        | .error exc => _add_exc_error (.str path) [] errors0 exc
      (if flatten then flatten_meta_to_pyout base.1 else base.1, base.2)
    else ([], errors0)
  fnFinish path keys env metaCalled r1

/-- Outcome of the per-asset body of the `ls` loop for one local path:
the record to emit, the ledger afterwards, whether `get_metadata_ls` was
called to build a closure, and which collaborators ran. -/
structure StepResult where
  outRec : PyDict
  errors : Ledger
  cbCreated : Bool
  metaCalled : Bool
  nwbCalled : Bool

/-- `not fields or "size" in fields` (Python truthiness of the parsed
field list: `None` or the empty list are falsy). -/
def sizeRequested (fields : Option (List String)) : Bool :=
  match fields with
  | Option.none => true
  | some fs => fs.isEmpty || fs.contains "size"

/-- Continuation of the per-asset body after the stat pass succeeded (or
was skipped): `if async_keys:` build the closure via `get_metadata_ls`
and resolve it, folding the resolved fields into the record
(`for k, v in cb_res.items(): rec[k] = v`).  This is the eager
(non-pyout) consumption mode; the pyout mode stores the identical
closure in the record for the sink to invoke, so its ledger and
call-count behaviour is that of `get_metadata_ls_fn` itself.  The
source's `if cb_res is None: raise` branch is unreachable: the closure
always returns a dict. -/
def processAfterStat (rec0 : PyDict) (asyncKeys : List String) (asset : String)
    (env : AssetEnv) (errors0 : Ledger) : StepResult :=
  if asyncKeys.isEmpty then ⟨rec0, errors0, false, false, false⟩
  else
    let fr := get_metadata_ls_fn asset asyncKeys false env errors0
    ⟨fr.outRec.foldl (fun r p => PyDict.set r p.1 p.2) rec0, fr.errors,
      true, fr.metaCalled, fr.nwbCalled⟩

/-- The per-asset body of the `ls` loop for a local path asset
(`isinstance(asset, str)` branch): create `rec = {"path": asset}`, then
inside `try`: when size is wanted and the path is not a directory, stat
it; then resolve expensive fields.  Any exception escaping the `try`
(here: only the stat, since the closure catches its own) is handed to
`_add_exc_error` with this asset and record. -/
def processPathAsset (fields : Option (List String)) (asyncKeys : List String)
    (asset : String) (env : AssetEnv) (errors0 : Ledger) : StepResult :=
  let rec0 : PyDict := [("path", .str asset)]
  if sizeRequested fields && !env.isdir then
    match env.stat with
    | .error exc =>
      let r := _add_exc_error (.str asset) rec0 errors0 exc
      ⟨r.1, r.2, false, false, false⟩
    | .ok n =>
      processAfterStat (PyDict.set rec0 "size" (.int n)) asyncKeys asset env errors0
  else processAfterStat rec0 asyncKeys asset env errors0

/-- One input of the `ls` loop: a local path (with its collaborator
environment) or a ready record produced by the remote-asset enumerator. -/
inductive Asset where
  | path (s : String) (env : AssetEnv)
  | record (r : PyDict)

/-- `schema is not None and asset.get("schemaVersion") != schema` for a
ready record (a missing key reads as `None`, which differs from any
requested version string). -/
def schemaMismatch (schema : Option String) (r : PyDict) : Bool :=
  match schema with
  | Option.none => false
  | some s =>
    match r.get "schemaVersion" with
    | some (.str t) => t != s
    | _ => true

/-- The `ls` collection loop over its inputs (eager consumption mode),
with the emitted records and the ledger as accumulators.  A completely
empty record is not emitted; instead the asset is recorded under the
ledger kind `"Empty record"` and the loop continues.  A ready record
whose `schemaVersion` differs from a requested schema raises
`NotImplementedError`, aborting the loop (modelled by `.error`). -/
def lsCollect (schema : Option String) (fields : Option (List String))
    (asyncKeys : List String) :
    List Asset → List PyDict → Ledger → Except String (List PyDict × Ledger)
  | [], recs, errs => .ok (recs, errs)
  | .path s env :: rest, recs, errs =>
    let st := processPathAsset fields asyncKeys s env errs
    if st.outRec.isEmpty then
      lsCollect schema fields asyncKeys rest recs
        (ledgerAdd "Empty record" (.str s) st.errors)
    else lsCollect schema fields asyncKeys rest (recs ++ [st.outRec]) st.errors
  | .record r :: rest, recs, errs =>
    if schemaMismatch schema r then .error "NotImplementedError"
    else if r.isEmpty then
      lsCollect schema fields asyncKeys rest recs
        (ledgerAdd "Empty record" (.dict r) errs)
    else lsCollect schema fields asyncKeys rest (recs ++ [r]) errs

/-- A propagating Python exception: (runtime type name, message). -/
abbrev PyExc := String × String

/-- `_required_dandiset_metadata_fields` from `dandi/validate.py`. -/
def _required_dandiset_metadata_fields : List String :=
  ["identifier", "name", "description"]

/-- `_required_nwb_metadata_fields` from `dandi/validate.py`. -/
def _required_nwb_metadata_fields : List String := ["subject_id"]

/-- `isinstance(v, str) and not v.strip()`: stripping whitespace from
both ends leaves the empty string exactly when every character of the
string is whitespace, so `not v.strip()` is modelled as "all characters
are whitespace" (true for the empty string as well). -/
def strWhitespaceOnly : Value → Bool
  | .str s => s.data.all Char.isWhitespace
  | _ => false

/-- `v in ("REQUIRED", "PLACEHOLDER")` (Python `in` compares with `==`,
which is false for every non-string value here). -/
def isPlaceholderVal : Value → Bool
  | .str s => s == "REQUIRED" || s == "PLACEHOLDER"
  | _ => false

/-- Scalar (non-container) values: exactly those that are neither a
list/tuple nor a dict. -/
def isScalar : Value → Bool
  | .list _ => false
  | .dict _ => false
  | _ => true

/-- `v = d.get(f, None)` in `_check_required_fields`. -/
def reqFieldVal (d : PyDict) (f : String) : Value :=
  (PyDict.get d f).getD .vnone

/-- The f-string `"Required field {f!r} has no value"`. -/
def noValueMsg (f : String) : String :=
  "Required field " ++ pyRepr (.str f) ++ " has no value"

/-- The f-string `"Required field {f!r} has value {v!r}"`. -/
def placeholderMsg (f : String) (v : Value) : String :=
  "Required field " ++ pyRepr (.str f) ++ " has value " ++ pyRepr v

/-- The body of the loop of `_check_required_fields` for one required
field `f`: `v = d.get(f, None)`; a falsy or whitespace-only-string value
appends one "has no value" message, and a placeholder value appends one
"has value ..." message (the two conditions are checked independently,
in this order). -/
def _check_required_fields_one (d : PyDict) (f : String) : List String :=
  let v := reqFieldVal d f
  let e1 := if !pyTruthy v || strWhitespaceOnly v then [noValueMsg f] else []
  let e2 := if isPlaceholderVal v then [placeholderMsg f v] else []
  e1 ++ e2

/-- `_check_required_fields` from `dandi/validate.py`: accumulate the
per-field problem strings over `required`, in order. -/
def _check_required_fields (d : PyDict) (required : List String) : List String :=
  required.foldl (fun errors f => errors ++ _check_required_fields_one d f) []

/-- External collaborators consulted while validating one file, each an
`Except PyExc` result:
* `basename` / `ext`: `op.basename(filepath)` and the extension;
* `yamlMeta`: `open(filepath)` + `yaml_load` of the descriptor — note
  that these calls sit *outside* every `try` block of the source;
* `dandisetModelValidation`: constructing `DandisetMeta(**meta)`;
* `assetMetadata`: `get_asset_metadata` + `BareAsset(**asset.dict())`;
* `legacyMeta`: `get_metadata(filepath)` on the legacy path;
* `pynwbResult`: `pynwb_validate(filepath, devel_debug)` (external);
* `movieResult`: the whole `validate_movie_file` body, whose behaviour
  is determined by the external cv2 media decoder. -/
structure FileEnv where
  basename : String
  ext : String
  yamlMeta : Except PyExc PyDict
  dandisetModelValidation : Except PyExc Unit
  assetMetadata : Except PyExc Unit
  legacyMeta : Except PyExc PyDict
  pynwbResult : Except PyExc (List String)
  movieResult : Except PyExc (List String)

/-- `schema_version != current_version` where the left side may be any
value taken from the descriptor's `schemaVersion` entry. -/
def valNeqStr (v : Value) (s : String) : Bool :=
  match v with
  | .str t => t != s
  | _ => true

/-- `validate_dandiset_yaml` from `dandi/validate.py` (the function body;
the `validate_cache.memoize_path` decorator is modelled separately).
Read the descriptor (a failure here propagates — it is outside every
`try`); default a missing requested version from the file's own
`schemaVersion`; with no effective version run the minimal
required-fields check; otherwise require the effective version to equal
the currently supported one (`get_schema_version()`, an external,
supplied as `currentVersion`), raising `ValueError` on mismatch in
either debug mode, and validate against the versioned model, catching
`ValidationError` (and any other exception) only in lenient mode. -/
def validate_dandiset_yaml (currentVersion : String) (env : FileEnv)
    (schema_version : Option String) (devel_debug : Bool) :
    Except PyExc (List String) :=
  match env.yamlMeta with
  | .error e => .error e
  | .ok meta =>
    let sv : Value :=
      match schema_version with
      | some v => .str v
      | Option.none => (PyDict.get meta "schemaVersion").getD .vnone
    match sv with
    | .vnone => .ok (_check_required_fields meta _required_dandiset_metadata_fields)
    | v =>
      if valNeqStr v currentVersion then
        .error ("ValueError",
          "Unsupported schema version: " ++ pyStr v ++ "; expected " ++ currentVersion)
      else
        match env.dandisetModelValidation with
        | .ok _ => .ok []
        | .error e =>
          if e.1 == "ValidationError" then
            if devel_debug then .error e else .ok [e.2]
          else if devel_debug then .error e
          else .ok ["Failed to initialize Dandiset meta: " ++ e.2]

/-- `validate_asset_file` from `dandi/validate.py` (the function body;
the memoizing decorator is modelled separately).  With a requested
schema version: raise `ValueError` in either debug mode when it differs
from the supported one, otherwise validate the extracted metadata
against the versioned bare-asset model, catching exceptions only in
lenient mode.  Without one: extract legacy metadata (lenient mode turns
an extraction failure into a one-element problem list) and run the
minimal required-fields check. -/
def validate_asset_file (currentVersion : String) (env : FileEnv)
    (schema_version : Option String) (devel_debug : Bool) :
    Except PyExc (List String) :=
  match schema_version with
  | some sv =>
    if sv != currentVersion then
      .error ("ValueError",
        "Unsupported schema version: " ++ sv ++ "; expected " ++ currentVersion)
    else
      match env.assetMetadata with
      | .ok _ => .ok []
      | .error e =>
        if e.1 == "ValidationError" then
          if devel_debug then .error e else .ok [e.2]
        else if devel_debug then .error e
        else .ok ["Failed to read metadata: " ++ e.2]
  | Option.none =>
    match env.legacyMeta with
    | .ok meta => .ok (_check_required_fields meta _required_nwb_metadata_fields)
    | .error e =>
      if devel_debug then .error e
      else .ok ["Failed to read metadata: " ++ e.2]

/-- `validate_file` from `dandi/validate.py`: dispatch on the file role.
A file whose basename is the descriptor filename goes to
`validate_dandiset_yaml` — with `schema_version=None` hardcoded in the
source, so the version requested by the caller never reaches the
descriptor validator.  A recognized video extension goes to
`validate_movie_file` (external decoder).  Everything else gets
`pynwb_validate(...) + validate_asset_file(...)`, where an exception
from the left summand propagates before the right one runs. -/
def validate_file (descName : String) (videoExts : List String)
    (currentVersion : String) (env : FileEnv) (schema_version : Option String)
    (devel_debug : Bool) : Except PyExc (List String) :=
  if env.basename == descName then
    validate_dandiset_yaml currentVersion env Option.none devel_debug
  else if videoExts.contains env.ext then
    env.movieResult
  else
    match env.pynwbResult with
    | .error e => .error e
    | .ok l1 =>
      match validate_asset_file currentVersion env schema_version devel_debug with
      | .error e => .error e
      | .ok l2 => .ok (l1 ++ l2)

/-- `validate` from `dandi/validate.py`, consumed to completion: for each
discovered file (the `find_files`/`find_dandi_files` enumeration is
external, so the discovered files and their environments are the input
list), yield `(path, validate_file(path, ...))`.  The body has no
`try/except`, so an exception from `validate_file` propagates out of the
generator and ends the sequence. -/
def validateBatch (descName : String) (videoExts : List String)
    (currentVersion : String) (schema_version : Option String)
    (devel_debug : Bool) :
    List (String × FileEnv) → Except PyExc (List (String × List String))
  | [] => .ok []
  | (p, env) :: rest =>
    match validate_file descName videoExts currentVersion env schema_version
        devel_debug with
    | .error e => .error e
    | .ok errs =>
      match validateBatch descName videoExts currentVersion schema_version
          devel_debug rest with
      | .error e => .error e
      | .ok l => .ok ((p, errs) :: l)

/-- Modelled from the spec: `validate_cache.memoize_path`, the decorator
applied to `validate_dandiset_yaml` and `validate_asset_file`.  The
decorator is defined in `dandi/pynwb_utils.py`, which is not among the
provided sources; per the spec, it memoizes one validation result per
file path keyed by the file's modification timestamp.  The cache state:
at most one entry per path, holding the timestamp seen at computation
time and the stored result. -/
structure ValidationCache where
  entries : List (String × Int × List String)

/-- The cache entry for a path, if any. -/
def cacheLookup (c : ValidationCache) (path : String) :
    Option (Int × List String) :=
  (c.entries.find? (fun e => e.1 == path)).map (fun e => e.2)

/-- Replace (or create) the entry for a path. -/
def cacheStore (c : ValidationCache) (path : String) (mtime : Int)
    (res : List String) : ValidationCache :=
  ⟨(c.entries.filter (fun e => e.1 != path)) ++ [(path, mtime, res)]⟩

/-- Modelled from the spec: one memoized call.  Compare the file's
current modification timestamp with the cached one; if equal return the
cached result without recomputing, otherwise recompute via the
underlying validator and replace the entry.  Returns the result, the new
cache state, and whether the underlying validator ran (the observable
call count of this invocation). -/
def memoizedValidate (compute : String → List String) (mtime : String → Int)
    (c : ValidationCache) (path : String) :
    List String × ValidationCache × Bool :=
  match cacheLookup c path with
  | some (t, res) =>
    if t == mtime path then (res, c, false)
    else
      let r := compute path
      (r, cacheStore c path (mtime path) r, true)
  | Option.none =>
    let r := compute path
    (r, cacheStore c path (mtime path) r, true)

/-! ## Helper lemmas -/

theorem PyDict.get_set_self (d : PyDict) (k : String) (v : Value) :
    PyDict.get (PyDict.set d k v) k = some v := by
  induction d with
  | nil => simp [PyDict.set, PyDict.get]
  | cons p rest ih =>
    by_cases h : p.1 == k
    · simp [PyDict.set, PyDict.get, h]
    · simp [PyDict.set, PyDict.get, h, ih]

theorem PyDict.get_set_ne (d : PyDict) (k k' : String) (v : Value) (h : k' ≠ k) :
    PyDict.get (PyDict.set d k v) k' = PyDict.get d k' := by
  have h1 : (k == k') = false := beq_eq_false_iff_ne.mpr (Ne.symm h)
  induction d with
  | nil => simp [PyDict.set, PyDict.get, h1]
  | cons p rest ih =>
    by_cases hp : p.1 == k
    · have hp' : p.1 = k := by simpa using hp
      have h2 : (p.1 == k') = false := by rw [hp']; exact h1
      simp [PyDict.set, PyDict.get, hp, h1, h2]
    · by_cases hq : p.1 == k'
      · simp [PyDict.set, PyDict.get, hp, hq]
      · simp [PyDict.set, PyDict.get, hp, hq, ih]

theorem PyDict.set_ne_nil (d : PyDict) (k : String) (v : Value) :
    (PyDict.set d k v).isEmpty = false := by
  cases d with
  | nil => rfl
  | cons p rest => by_cases h : p.1 == k <;> simp [PyDict.set, h]

theorem PyDict.set_of_not_mem (d : PyDict) (k : String) (v : Value)
    (h : k ∉ d.map Prod.fst) : PyDict.set d k v = d ++ [(k, v)] := by
  induction d with
  | nil => rfl
  | cons p rest ih =>
    simp only [List.map_cons, List.mem_cons] at h
    push_neg at h
    have hp : (p.1 == k) = false := beq_eq_false_iff_ne.mpr (Ne.symm h.1)
    simp [PyDict.set, hp, ih h.2]

theorem PyDict.get_isSome_iff (d : PyDict) (k : String) :
    (PyDict.get d k).isSome ↔ k ∈ d.map Prod.fst := by
  induction d with
  | nil => simp [PyDict.get]
  | cons p rest ih =>
    by_cases h : p.1 == k
    · have h' : p.1 = k := by simpa using h
      simp [PyDict.get, h, h']
    · have h' : p.1 ≠ k := by simpa using h
      simp [PyDict.get, h, ih, Ne.symm h']

theorem PyDict.get_eq_none_of_not_mem (d : PyDict) (k : String)
    (h : k ∉ d.map Prod.fst) : PyDict.get d k = Option.none := by
  cases hg : PyDict.get d k with
  | none => rfl
  | some v => exact absurd ((PyDict.get_isSome_iff d k).mp (by simp [hg])) h

theorem PyDict.get_set_isSome (d : PyDict) (k k' : String) (v : Value)
    (h : (PyDict.get (PyDict.set d k v) k').isSome) :
    k' = k ∨ (PyDict.get d k').isSome := by
  by_cases hk : k' = k
  · exact Or.inl hk
  · right; rwa [PyDict.get_set_ne d k k' v hk] at h

theorem PyDict.get_foldl_set_of_not_mem (l : List (String × Value)) :
    ∀ (acc : PyDict) (k : String), k ∉ l.map Prod.fst →
      PyDict.get (l.foldl (fun r p => PyDict.set r p.1 p.2) acc) k
        = PyDict.get acc k := by
  induction l with
  | nil => intro acc k _; rfl
  | cons p rest ih =>
    intro acc k hk
    simp only [List.map_cons, List.mem_cons] at hk
    push_neg at hk
    rw [List.foldl_cons, ih _ _ hk.2, PyDict.get_set_ne _ _ _ _ hk.1]

theorem PyDict.foldl_set_ne_nil (l : List (String × Value)) :
    ∀ acc : PyDict, acc.isEmpty = false →
      ((l.foldl (fun r p => PyDict.set r p.1 p.2) acc).isEmpty = false) := by
  induction l with
  | nil => intro acc h; exact h
  | cons p rest ih => intro acc _; exact ih _ (PyDict.set_ne_nil _ _ _)

theorem ledgerGet_add_self (led : Ledger) (kind : String) (a : Value) :
    ledgerGet (ledgerAdd kind a led) kind = ledgerGet led kind ++ [a] := by
  induction led with
  | nil => simp [ledgerAdd, ledgerGet]
  | cons p rest ih =>
    by_cases h : p.1 == kind
    · simp [ledgerAdd, ledgerGet, h]
    · simp [ledgerAdd, ledgerGet, h, ih]

theorem flattenStrList_eq_map (vs : List Value) :
    flattenStrList vs = vs.map (fun v => pyStr (flatten_v v)) := by
  induction vs with
  | nil => rfl
  | cons v rest ih => simp [flattenStrList, ih]

theorem flattenStrList_map_str (l : List String) :
    flattenStrList (l.map Value.str) = l := by
  induction l with
  | nil => rfl
  | cons s rest ih =>
    show pyStr (flatten_v (.str s)) :: flattenStrList (rest.map Value.str) = s :: rest
    rw [ih]
    rfl

theorem flatten_v_dict_faithful (ps : List (String × Value)) :
    flatten_v (.dict ps)
      = flatten_v (.list (ps.map (fun p => .str (p.1 ++ ": " ++ pyStr p.2)))) := by
  have h2 : (ps.map (fun p => Value.str (p.1 ++ ": " ++ pyStr p.2)))
      = (ps.map (fun p => p.1 ++ ": " ++ pyStr p.2)).map Value.str := by
    rw [List.map_map]; rfl
  rw [show flatten_v (.list (ps.map (fun p => .str (p.1 ++ ": " ++ pyStr p.2))))
      = .str (String.intercalate ", "
          (flattenStrList (ps.map (fun p => .str (p.1 ++ ": " ++ pyStr p.2))))) from rfl]
  rw [h2, flattenStrList_map_str]
  rfl

theorem flatten_meta_go (meta : List (String × Value)) :
    ∀ acc : PyDict, (acc.map Prod.fst ++ meta.map Prod.fst).Nodup →
      meta.foldl
          (fun out p => if !pyTruthy p.2 then out
            else PyDict.set out p.1 (flatten_v p.2)) acc
        = acc ++ (meta.filter (fun p => pyTruthy p.2)).map
            (fun p => (p.1, flatten_v p.2)) := by
  induction meta with
  | nil => intro acc _; simp
  | cons p rest ih =>
    intro acc hnd
    rw [List.map_cons] at hnd
    have hsplit := List.nodup_append.mp hnd
    by_cases h : pyTruthy p.2
    · have hfresh : p.1 ∉ acc.map Prod.fst := fun hmem =>
        hsplit.2.2 hmem (List.mem_cons_self _ _)
      have hnd' : ((acc ++ [(p.1, flatten_v p.2)]).map Prod.fst
          ++ rest.map Prod.fst).Nodup := by
        simpa [List.map_append, List.append_assoc] using hnd
      rw [List.foldl_cons]
      have hstep : (if !pyTruthy p.2 then acc
          else PyDict.set acc p.1 (flatten_v p.2))
          = acc ++ [(p.1, flatten_v p.2)] := by
        simp [h, PyDict.set_of_not_mem _ _ _ hfresh]
      rw [hstep, ih _ hnd']
      simp [List.filter_cons, h, List.append_assoc]
    · have hnd' : (acc.map Prod.fst ++ rest.map Prod.fst).Nodup :=
        List.nodup_append.mpr ⟨hsplit.1, (List.nodup_cons.mp hsplit.2.1).2,
          fun _ ha hb => hsplit.2.2 ha (List.mem_cons_of_mem _ hb)⟩
      rw [List.foldl_cons]
      have hstep : (if !pyTruthy p.2 then acc
          else PyDict.set acc p.1 (flatten_v p.2)) = acc := by simp [h]
      rw [hstep, ih _ hnd']
      simp [List.filter_cons, h]

theorem flatten_meta_to_pyout_char (meta : PyDict)
    (hnd : (meta.map Prod.fst).Nodup) :
    flatten_meta_to_pyout meta
      = (meta.filter (fun p => pyTruthy p.2)).map
          (fun p => (p.1, flatten_v p.2)) := by
  have h := flatten_meta_go meta [] (by simpa using hnd)
  simpa [flatten_meta_to_pyout] using h

theorem get_filterMap_flatten (meta : List (String × Value)) :
    ∀ (k : String) (v : Value), (meta.map Prod.fst).Nodup →
      PyDict.get meta k = some v →
      PyDict.get ((meta.filter (fun p => pyTruthy p.2)).map
          (fun p => (p.1, flatten_v p.2))) k
        = if pyTruthy v then some (flatten_v v) else Option.none := by
  induction meta with
  | nil => intro k v _ h; simp [PyDict.get] at h
  | cons p rest ih =>
    intro k v hnd h
    have hnd' : (rest.map Prod.fst).Nodup :=
      (List.nodup_cons.mp (by simpa using hnd)).2
    by_cases hpk : p.1 == k
    · have hp1 : p.1 = k := by simpa using hpk
      have hv : p.2 = v := by
        have h2 := h
        simp [PyDict.get, hpk] at h2
        exact h2
      subst hv
      by_cases ht : pyTruthy p.2
      · simp [List.filter_cons, ht, PyDict.get, hpk]
      · have hknot : k ∉ rest.map Prod.fst := by
          rw [← hp1]
          exact (List.nodup_cons.mp (by simpa using hnd)).1
        have hnone : PyDict.get ((rest.filter (fun p => pyTruthy p.2)).map
            (fun p => (p.1, flatten_v p.2))) k = Option.none := by
          apply PyDict.get_eq_none_of_not_mem
          intro hm
          apply hknot
          simp only [List.map_map, List.mem_map, Function.comp] at hm
          obtain ⟨q, hq, rfl⟩ := hm
          exact List.mem_map_of_mem _ (List.mem_of_mem_filter hq)
        simp [List.filter_cons, ht, hnone]
    · have h' : PyDict.get rest k = some v := by simpa [PyDict.get, hpk] using h
      by_cases ht : pyTruthy p.2
      · simp [List.filter_cons, ht, PyDict.get, hpk, ih k v hnd' h']
      · simp [List.filter_cons, ht, ih k v hnd' h']

theorem placeholder_not_falsy (v : Value) (h : isPlaceholderVal v = true) :
    (!pyTruthy v || strWhitespaceOnly v) = false := by
  cases v with
  | str s =>
    simp only [isPlaceholderVal, Bool.or_eq_true, beq_iff_eq] at h
    rcases h with rfl | rfl <;> decide
  | vnone => simp [isPlaceholderVal] at h
  | bool b => simp [isPlaceholderVal] at h
  | int n => simp [isPlaceholderVal] at h
  | list l => simp [isPlaceholderVal] at h
  | dict d => simp [isPlaceholderVal] at h

theorem foldl_append_eq_flatMap (g : String → List String) (l : List String) :
    ∀ acc : List String,
      l.foldl (fun e f => e ++ g f) acc = acc ++ l.flatMap g := by
  induction l with
  | nil => intro acc; simp
  | cons f rest ih => intro acc; simp [List.foldl_cons, ih]

theorem get_filter_contains_mem (d : List (String × Value)) (keys : List String)
    (k : String)
    (h : (PyDict.get (d.filter (fun p => keys.contains p.1)) k).isSome) :
    k ∈ keys := by
  have hmem := (PyDict.get_isSome_iff _ _).mp h
  simp only [List.mem_map] at hmem
  obtain ⟨q, hq, rfl⟩ := hmem
  have hc := (List.mem_filter.mp hq).2
  simpa using hc

theorem fnFinish_key_mem (path : String) (keys : List String) (env : AssetEnv)
    (metaCalled : Bool) (r1 : PyDict × Ledger) (k : String)
    (h : (PyDict.get (fnFinish path keys env metaCalled r1).outRec k).isSome) :
    k ∈ keys ∨ k = "errors" := by
  unfold fnFinish at h
  dsimp only [] at h
  split at h
  next hguard =>
    have hcont : keys.contains "nwb_version" = true := by
      have h1 := (Bool.and_eq_true _ _).mp hguard
      exact ((Bool.and_eq_true _ _).mp h1.2).2
    split at h
    next v heq =>
      rcases PyDict.get_set_isSome _ _ _ _ h with rfl | hrec
      · exact Or.inl (by simpa using hcont)
      · exact Or.inl (get_filter_contains_mem _ _ _ hrec)
    next e heq =>
      simp only [_add_exc_error] at h
      rcases PyDict.get_set_isSome _ _ _ _ h with rfl | hrec
      · exact Or.inr rfl
      · exact Or.inl (get_filter_contains_mem _ _ _ hrec)
  next hguard =>
    exact Or.inl (get_filter_contains_mem _ _ _ h)

theorem fn_outRec_key_mem (path : String) (keys : List String) (flatten : Bool)
    (env : AssetEnv) (errs0 : Ledger) (k : String)
    (h : (PyDict.get (get_metadata_ls_fn path keys flatten env errs0).outRec
        k).isSome) :
    k ∈ keys ∨ k = "errors" := by
  unfold get_metadata_ls_fn at h
  exact fnFinish_key_mem _ _ _ _ _ _ h

theorem processAfterStat_ne_nil (rec0 : PyDict) (aks : List String)
    (asset : String) (env : AssetEnv) (errs0 : Ledger)
    (h : rec0.isEmpty = false) :
    (processAfterStat rec0 aks asset env errs0).outRec.isEmpty = false := by
  unfold processAfterStat
  split
  · exact h
  · exact PyDict.foldl_set_ne_nil _ _ h

theorem processPathAsset_outRec_ne_nil (fields : Option (List String))
    (aks : List String) (asset : String) (env : AssetEnv) (errs0 : Ledger) :
    (processPathAsset fields aks asset env errs0).outRec.isEmpty = false := by
  unfold processPathAsset
  split
  · split
    · simp [_add_exc_error, PyDict.set_ne_nil]
    · exact processAfterStat_ne_nil _ _ _ _ _ (PyDict.set_ne_nil _ _ _)
  · exact processAfterStat_ne_nil _ _ _ _ _ rfl

theorem fnFinish_metaCalled (path : String) (keys : List String)
    (env : AssetEnv) (mc : Bool) (r1 : PyDict × Ledger) :
    (fnFinish path keys env mc r1).metaCalled = mc := by
  unfold fnFinish
  dsimp only []
  split
  · split <;> rfl
  · rfl

theorem fnFinish_nwbCalled (path : String) (keys : List String)
    (env : AssetEnv) (mc : Bool) (r1 : PyDict × Ledger)
    (h : (fnFinish path keys env mc r1).nwbCalled = true) :
    keys.contains "nwb_version" = true := by
  unfold fnFinish at h
  dsimp only [] at h
  split at h
  next hguard =>
    have h1 := (Bool.and_eq_true _ _).mp hguard
    exact ((Bool.and_eq_true _ _).mp h1.2).2
  next => simp at h

theorem fnFinish_errors_no_nwb (path : String) (keys : List String)
    (env : AssetEnv) (mc : Bool) (r1 : PyDict × Ledger)
    (hc : keys.contains "nwb_version" = false) :
    (fnFinish path keys env mc r1).errors = r1.2 := by
  unfold fnFinish
  dsimp only []
  split
  next hguard =>
    exfalso
    have h1 := (Bool.and_eq_true _ _).mp hguard
    have h2 := ((Bool.and_eq_true _ _).mp h1.2).2
    rw [hc] at h2
    exact Bool.false_ne_true h2
  next => rfl

theorem fn_metaCalled_eq (path : String) (keys : List String) (flatten : Bool)
    (env : AssetEnv) (errs0 : Ledger) :
    (get_metadata_ls_fn path keys flatten env errs0).metaCalled
      = (keys != ["nwb_version"]) := by
  unfold get_metadata_ls_fn
  dsimp only []
  exact fnFinish_metaCalled _ _ _ _ _

theorem fn_meta_error_ledger (path : String) (keys : List String)
    (flatten : Bool) (env : AssetEnv) (errs0 : Ledger) (exc : String)
    (hk : keys ≠ ["nwb_version"]) (hm : env.meta = .error exc)
    (hc : keys.contains "nwb_version" = false) :
    (get_metadata_ls_fn path keys flatten env errs0).errors
      = ledgerAdd exc (.str path) errs0 := by
  unfold get_metadata_ls_fn
  dsimp only []
  rw [fnFinish_errors_no_nwb _ _ _ _ _ hc]
  have hk' : (keys != ["nwb_version"]) = true := bne_iff_ne.mpr hk
  simp [hk', hm, _add_exc_error]

theorem processAfterStat_path_get (rec0 : PyDict) (aks : List String)
    (asset : String) (env : AssetEnv) (errs0 : Ledger) (k : String)
    (hk : k ∉ aks) (hke : k ≠ "errors") :
    PyDict.get (processAfterStat rec0 aks asset env errs0).outRec k
      = PyDict.get rec0 k := by
  unfold processAfterStat
  dsimp only []
  split
  · rfl
  · apply PyDict.get_foldl_set_of_not_mem
    intro hmem
    have hsome : (PyDict.get
        (get_metadata_ls_fn asset aks false env errs0).outRec k).isSome :=
      (PyDict.get_isSome_iff _ _).mpr hmem
    rcases fn_outRec_key_mem _ _ _ _ _ _ hsome with hmem2 | rfl
    · exact hk hmem2
    · exact hke rfl

theorem processPathAsset_path_get (fields : Option (List String))
    (aks : List String) (asset : String) (env : AssetEnv) (errs0 : Ledger)
    (hk : "path" ∉ aks) :
    PyDict.get (processPathAsset fields aks asset env errs0).outRec "path"
      = some (.str asset) := by
  unfold processPathAsset
  dsimp only []
  split
  · split
    · simp only [_add_exc_error]
      rw [PyDict.get_set_ne _ _ _ _ (show "path" ≠ "errors" by decide)]
      simp [PyDict.get]
    · rw [processAfterStat_path_get _ _ _ _ _ _ hk (by decide)]
      rw [PyDict.get_set_ne _ _ _ _ (show "path" ≠ "size" by decide)]
      simp [PyDict.get]
  · rw [processAfterStat_path_get _ _ _ _ _ _ hk (by decide)]
    simp [PyDict.get]

theorem processPathAsset_empty_aks (fields : Option (List String))
    (asset : String) (env : AssetEnv) (errs0 : Ledger) :
    (processPathAsset fields [] asset env errs0).cbCreated = false
    ∧ (processPathAsset fields [] asset env errs0).metaCalled = false
    ∧ (processPathAsset fields [] asset env errs0).nwbCalled = false := by
  unfold processPathAsset processAfterStat
  dsimp only []
  split
  · split <;> simp
  · simp

theorem processPathAsset_metaCalled (fields : Option (List String))
    (aks : List String) (asset : String) (env : AssetEnv) (errs0 : Ledger)
    (h : (processPathAsset fields aks asset env errs0).metaCalled = true) :
    aks ≠ [] ∧ aks ≠ ["nwb_version"] := by
  unfold processPathAsset processAfterStat at h
  dsimp only [] at h
  split at h
  · split at h
    · simp at h
    · split at h
      · simp at h
      next hne =>
        dsimp only [] at h
        rw [fn_metaCalled_eq] at h
        exact ⟨by simpa using hne, bne_iff_ne.mp h⟩
  · split at h
    · simp at h
    next hne =>
      dsimp only [] at h
      rw [fn_metaCalled_eq] at h
      exact ⟨by simpa using hne, bne_iff_ne.mp h⟩

theorem processPathAsset_nwbCalled (fields : Option (List String))
    (aks : List String) (asset : String) (env : AssetEnv) (errs0 : Ledger)
    (h : (processPathAsset fields aks asset env errs0).nwbCalled = true) :
    "nwb_version" ∈ aks := by
  unfold processPathAsset processAfterStat at h
  dsimp only [] at h
  split at h
  · split at h
    · simp at h
    · split at h
      · simp at h
      · dsimp only [] at h
        unfold get_metadata_ls_fn at h
        dsimp only [] at h
        simpa using fnFinish_nwbCalled _ _ _ _ _ h
  · split at h
    · simp at h
    · dsimp only [] at h
      unfold get_metadata_ls_fn at h
      dsimp only [] at h
      simpa using fnFinish_nwbCalled _ _ _ _ _ h

theorem processPathAsset_cbCreated (fields : Option (List String))
    (aks : List String) (asset : String) (env : AssetEnv) (errs0 : Ledger)
    (h : (processPathAsset fields aks asset env errs0).cbCreated = true) :
    aks ≠ [] := by
  unfold processPathAsset processAfterStat at h
  dsimp only [] at h
  split at h
  · split at h
    · simp at h
    · split at h
      · simp at h
      next hne => simpa using hne
  · split at h
    · simp at h
    next hne => simpa using hne

theorem lsCollect_paths (schema : Option String) (fields : Option (List String))
    (aks : List String) (inputs : List (String × AssetEnv)) :
    ∀ (recs0 : List PyDict) (errs0 : Ledger),
      ∃ recs errs,
        lsCollect schema fields aks
            (inputs.map (fun p => Asset.path p.1 p.2)) recs0 errs0
          = .ok (recs, errs) ∧ recs.length = recs0.length + inputs.length := by
  induction inputs with
  | nil =>
    intro recs0 errs0
    exact ⟨recs0, errs0, rfl, by simp⟩
  | cons p rest ih =>
    intro recs0 errs0
    have hne := processPathAsset_outRec_ne_nil fields aks p.1 p.2 errs0
    obtain ⟨recs, errs, heq, hlen⟩ :=
      ih (recs0 ++ [(processPathAsset fields aks p.1 p.2 errs0).outRec])
        (processPathAsset fields aks p.1 p.2 errs0).errors
    refine ⟨recs, errs, ?_, ?_⟩
    · rw [List.map_cons]
      simp only [lsCollect, hne, Bool.false_eq_true, if_false]
      exact heq
    · simp at hlen ⊢
      omega

/-! ## Claim theorems -/

/-- C6: `flatten_v` turns a list into its elements recursively flattened,
stringified and joined with ", " (so `flatten(["a","b"]) = "a, b"`); a
dict into its "key: value" entries (values verbatim) flattened as a list
(so `flatten({"x": 1, "y": 2}) = "x: 1, y: 2"`); a scalar is returned
unchanged; and at the record level `flatten_meta_to_pyout` drops every
entry with a falsy value (empty string, empty list, empty dict, zero,
None) from the output record entirely, flattening the remaining values
in place. -/
theorem C6_flatten_v_and_falsy_elision :
    (∀ vs : List Value, flatten_v (.list vs)
        = .str (String.intercalate ", "
            (vs.map (fun v => pyStr (flatten_v v)))))
    ∧ (∀ ps : List (String × Value), flatten_v (.dict ps)
        = flatten_v (.list (ps.map (fun p => .str (p.1 ++ ": " ++ pyStr p.2)))))
    ∧ (∀ v : Value, isScalar v = true → flatten_v v = v)
    ∧ flatten_v (.list [.str "a", .str "b"]) = .str "a, b"
    ∧ flatten_v (.dict [("x", .int 1), ("y", .int 2)]) = .str "x: 1, y: 2"
    ∧ (∀ meta : PyDict, (meta.map Prod.fst).Nodup →
        flatten_meta_to_pyout meta
          = (meta.filter (fun p => pyTruthy p.2)).map
              (fun p => (p.1, flatten_v p.2))) := by
  refine ⟨?_, flatten_v_dict_faithful, ?_, rfl, rfl, flatten_meta_to_pyout_char⟩
  · intro vs
    rw [show flatten_v (.list vs)
        = .str (String.intercalate ", " (flattenStrList vs)) from rfl,
      flattenStrList_eq_map]
  · intro v hv
    cases v <;> first | rfl | simp [isScalar] at hv

theorem C6_flatten_v_and_falsy_elision_witness :
    flatten_v (.int 7) = .int 7
    ∧ flatten_meta_to_pyout
        [("a", .str ""), ("b", .int 2), ("c", .list []), ("d", .int 0),
         ("e", .vnone), ("g", .dict [])]
      = [("b", .int 2)] := by
  refine ⟨C6_flatten_v_and_falsy_elision.2.2.1 _ rfl, ?_⟩
  rw [C6_flatten_v_and_falsy_elision.2.2.2.2.2 _ (by decide)]
  rfl

/-- C7 counterexample: the flattener the pyout path actually applies
(`flatten_meta_to_pyout`, called from `get_metadata_ls`) does not
promote the inner keys of a nested mapping to `"<outer>_<inner>"`
top-level keys; the entry `("outer", {"a": 1, "b": 2})` is collapsed to
the single joined string `"a: 1, b: 2"` under the unchanged key
`"outer"`, and no key `"outer_a"` appears — also visible on the closure
built by `get_metadata_ls` with `flatten=True` (the pyout case). -/
theorem C7_counterexample :
    flatten_meta_to_pyout [("outer", .dict [("a", .int 1), ("b", .int 2)])]
      = [("outer", .str "a: 1, b: 2")]
    ∧ PyDict.get (flatten_meta_to_pyout
        [("outer", .dict [("a", .int 1), ("b", .int 2)])]) "outer_a"
      = Option.none
    ∧ (get_metadata_ls_fn "f.nwb" ["outer"] true
        ⟨true, .ok 0, .ok [("outer", .dict [("a", .int 1), ("b", .int 2)])],
          .ok .vnone⟩ []).outRec
      = [("outer", .str "a: 1, b: 2")] := by
  exact ⟨rfl, rfl, rfl⟩

/-- C7 as amended: when a metadata record is flattened for the tabular
(pyout) sink by `flatten_meta_to_pyout`, a top-level entry whose value is
a nested non-empty mapping is collapsed into a single ", "-joined
"key: value" string kept under the unchanged outer key (an empty mapping
entry is dropped), and no new top-level keys are introduced; the
promotion of inner keys to `"<outer>_<inner>"` is performed only by the
older `flatten_meta_to_pyout_v1`, which `get_metadata_ls` does not
call. -/
theorem C7_amended_nested_mapping_flattening :
    (∀ meta : PyDict, (meta.map Prod.fst).Nodup →
      ∀ (f : String) (ps : List (String × Value)),
        PyDict.get meta f = some (.dict ps) →
        PyDict.get (flatten_meta_to_pyout meta) f
          = if ps.isEmpty then Option.none
            else some (.str (String.intercalate ", "
                (ps.map (fun p => p.1 ++ ": " ++ pyStr p.2)))))
    ∧ (∀ meta : PyDict, (meta.map Prod.fst).Nodup → ∀ k : String,
        (PyDict.get (flatten_meta_to_pyout meta) k).isSome →
        (PyDict.get meta k).isSome)
    ∧ flatten_meta_to_pyout_v1 [("outer", .dict [("a", .int 1), ("b", .int 2)])]
        = [("outer_a", .int 1), ("outer_b", .int 2)] := by
  refine ⟨?_, ?_, ?_⟩
  · intro meta hnd f ps hget
    rw [flatten_meta_to_pyout_char meta hnd,
      get_filterMap_flatten meta f (.dict ps) hnd hget]
    by_cases hps : ps.isEmpty
    · simp [pyTruthy, hps]
    · simp [pyTruthy, hps, flatten_v]
  · intro meta hnd k hk
    rw [flatten_meta_to_pyout_char meta hnd] at hk
    have hmem := (PyDict.get_isSome_iff _ _).mp hk
    apply (PyDict.get_isSome_iff _ _).mpr
    simp only [List.map_map, List.mem_map, Function.comp] at hmem
    obtain ⟨q, hq, rfl⟩ := hmem
    exact List.mem_map_of_mem _ (List.mem_of_mem_filter hq)
  · simp [flatten_meta_to_pyout_v1, v1Fold, pyTruthy, PyDict.set, flatten_v]

theorem C7_amended_nested_mapping_flattening_witness :
    PyDict.get (flatten_meta_to_pyout
        [("outer", .dict [("a", .int 1), ("b", .int 2)])]) "outer"
      = some (.str "a: 1, b: 2") := by
  have h := C7_amended_nested_mapping_flattening.1
      [("outer", .dict [("a", .int 1), ("b", .int 2)])] (by decide)
      "outer" [("a", .int 1), ("b", .int 2)] rfl
  exact h.trans rfl

/-- C8: for every mapping and required-field list,
`_check_required_fields` yields exactly one problem string per violating
field: a missing, otherwise falsy, or whitespace-only-string value gives
exactly the one "has no value" message naming the field; a literal
"REQUIRED"/"PLACEHOLDER" value gives exactly the one differently-worded
"has value ..." message naming the field and its value; a valid value
contributes nothing; and the whole result is the concatenation of the
per-field results in order. -/
theorem C8_required_field_check :
    (∀ (d : PyDict) (f : String),
        (!pyTruthy (reqFieldVal d f) || strWhitespaceOnly (reqFieldVal d f))
            = true →
        _check_required_fields_one d f = [noValueMsg f])
    ∧ (∀ (d : PyDict) (f : String),
        isPlaceholderVal (reqFieldVal d f) = true →
        _check_required_fields_one d f = [placeholderMsg f (reqFieldVal d f)])
    ∧ (∀ (d : PyDict) (f : String),
        (!pyTruthy (reqFieldVal d f) || strWhitespaceOnly (reqFieldVal d f))
            = false →
        isPlaceholderVal (reqFieldVal d f) = false →
        _check_required_fields_one d f = [])
    ∧ (∀ (d : PyDict) (required : List String),
        _check_required_fields d required
          = required.flatMap (_check_required_fields_one d))
    ∧ (∀ (f : String) (v : Value), isPlaceholderVal v = true →
        noValueMsg f ≠ placeholderMsg f v) := by
  refine ⟨?_, ?_, ?_, ?_, ?_⟩
  · intro d f hval
    have hnp : isPlaceholderVal (reqFieldVal d f) = false := by
      cases hp : isPlaceholderVal (reqFieldVal d f)
      · rfl
      · rw [placeholder_not_falsy _ hp] at hval
        exact absurd hval (by simp)
    simp [_check_required_fields_one, hval, hnp]
  · intro d f hp
    simp [_check_required_fields_one, hp, placeholder_not_falsy _ hp]
  · intro d f h1 h2
    simp [_check_required_fields_one, h1, h2]
  · intro d required
    unfold _check_required_fields
    rw [foldl_append_eq_flatMap]
    simp
  · intro f v hv heq
    cases v with
    | str s =>
      simp only [isPlaceholderVal, Bool.or_eq_true, beq_iff_eq] at hv
      have h15 : "Required field ".length = 15 := by decide
      have hq : "\x27".length = 1 := by decide
      have h13 : " has no value".length = 13 := by decide
      have h11 : " has value ".length = 11 := by decide
      have h8 : "REQUIRED".length = 8 := by decide
      have hP : "PLACEHOLDER".length = 11 := by decide
      rcases hv with rfl | rfl <;>
      · have hlen := congrArg String.length heq
        simp only [noValueMsg, placeholderMsg, pyRepr,
          String.length_append] at hlen
        omega
    | vnone => simp [isPlaceholderVal] at hv
    | bool b => simp [isPlaceholderVal] at hv
    | int n => simp [isPlaceholderVal] at hv
    | list l => simp [isPlaceholderVal] at hv
    | dict ps => simp [isPlaceholderVal] at hv

theorem C8_required_field_check_witness :
    _check_required_fields_one [("name", .str "REQUIRED")] "name"
      = [placeholderMsg "name" (.str "REQUIRED")]
    ∧ _check_required_fields_one [("name", .str "REQUIRED")] "identifier"
      = [noValueMsg "identifier"]
    ∧ _check_required_fields_one [("subject_id", .str "  ")] "subject_id"
      = [noValueMsg "subject_id"]
    ∧ _check_required_fields_one [("name", .str "M001")] "name" = []
    ∧ noValueMsg "name" ≠ placeholderMsg "name" (.str "REQUIRED") := by
  exact ⟨C8_required_field_check.2.1 _ "name" rfl,
         C8_required_field_check.1 _ "identifier" rfl,
         C8_required_field_check.1 _ "subject_id" (by decide),
         C8_required_field_check.2.2.1 _ "name" (by decide) rfl,
         C8_required_field_check.2.2.2.2 "name" _ rfl⟩

/-- C3: a requested schema version that differs from the currently
supported one makes both `validate_dandiset_yaml` (once the descriptor
has been read) and `validate_asset_file` raise `ValueError`, in both
lenient (`devel_debug=False`) and strict (`devel_debug=True`) mode; the
error propagates as an exception instead of being returned as a problem
string. -/
theorem C3_schema_version_mismatch_always_raises :
    ∀ (currentVersion sv : String) (env : FileEnv) (devel_debug : Bool)
      (meta : PyDict),
      sv ≠ currentVersion → env.yamlMeta = .ok meta →
      validate_dandiset_yaml currentVersion env (some sv) devel_debug
          = .error ("ValueError", "Unsupported schema version: " ++ sv
              ++ "; expected " ++ currentVersion)
      ∧ validate_asset_file currentVersion env (some sv) devel_debug
          = .error ("ValueError", "Unsupported schema version: " ++ sv
              ++ "; expected " ++ currentVersion) := by
  intro cv sv env dbg meta hne hyaml
  constructor
  · unfold validate_dandiset_yaml
    rw [hyaml]
    have hneq : valNeqStr (.str sv) cv = true := by
      simp [valNeqStr, hne]
    simp [hneq, pyStr]
  · unfold validate_asset_file
    have hb : (sv != cv) = true := bne_iff_ne.mpr hne
    simp [hb]

theorem C3_schema_version_mismatch_always_raises_witness :
    validate_asset_file "0.6.0"
        ⟨"a.nwb", ".nwb", .ok [], .ok (), .ok (), .ok [], .ok [], .ok []⟩
        (some "0.3.0") true
      = .error ("ValueError", "Unsupported schema version: 0.3.0; expected 0.6.0")
    ∧ validate_dandiset_yaml "0.6.0"
        ⟨"dandiset.yaml", ".yaml", .ok [], .ok (), .ok (), .ok [], .ok [], .ok []⟩
        (some "0.3.0") false
      = .error ("ValueError", "Unsupported schema version: 0.3.0; expected 0.6.0") := by
  exact ⟨(C3_schema_version_mismatch_always_raises "0.6.0" "0.3.0"
            ⟨"a.nwb", ".nwb", .ok [], .ok (), .ok (), .ok [], .ok [], .ok []⟩
            true [] (by decide) rfl).2,
         (C3_schema_version_mismatch_always_raises "0.6.0" "0.3.0"
            ⟨"dandiset.yaml", ".yaml", .ok [], .ok (), .ok (), .ok [], .ok [], .ok []⟩
            false [] (by decide) rfl).1⟩

/-- C4 counterexample: `validate_file` on a file whose basename is the
descriptor filename with schema version "0.3.0" requested while "0.6.0"
is current (and a descriptor carrying no `schemaVersion` of its own)
does not raise the version-mismatch error and does not run the versioned
model: it returns the unversioned required-fields problem strings,
because the source hardcodes `schema_version=None` in the call to
`validate_dandiset_yaml`. -/
theorem C4_counterexample :
    validate_file "dandiset.yaml" [".avi", ".mp4"] "0.6.0"
        ⟨"dandiset.yaml", ".yaml", .ok [], .ok (), .ok (), .ok [], .ok [],
          .ok []⟩
        (some "0.3.0") false
      = .ok [noValueMsg "identifier", noValueMsg "name",
             noValueMsg "description"] := by
  rfl

/-- C4 as amended: `validate_file` on a descriptor-named file always
calls `validate_dandiset_yaml` with `schema_version=None`, discarding
the version requested by the caller; the version that is then required
to equal the currently supported one is the descriptor's own
`schemaVersion` entry, whose mismatch raises the fatal `ValueError`
immediately in either debug mode. -/
theorem C4_amended_descriptor_version_handling :
    (∀ (descName : String) (videoExts : List String)
        (currentVersion : String) (env : FileEnv) (sv : Option String)
        (dbg : Bool),
        env.basename = descName →
        validate_file descName videoExts currentVersion env sv dbg
          = validate_dandiset_yaml currentVersion env Option.none dbg)
    ∧ (∀ (currentVersion : String) (env : FileEnv) (meta : PyDict)
        (t : String) (dbg : Bool),
        env.yamlMeta = .ok meta →
        PyDict.get meta "schemaVersion" = some (.str t) →
        t ≠ currentVersion →
        validate_dandiset_yaml currentVersion env Option.none dbg
          = .error ("ValueError", "Unsupported schema version: " ++ t
              ++ "; expected " ++ currentVersion)) := by
  constructor
  · intro descName videoExts cv env sv dbg hbn
    unfold validate_file
    have hb : (env.basename == descName) = true := by simp [hbn]
    simp [hb]
  · intro cv env meta t dbg hyaml hget hne
    unfold validate_dandiset_yaml
    rw [hyaml]
    have hb : (t != cv) = true := bne_iff_ne.mpr hne
    simp [hget, valNeqStr, hb, pyStr]

theorem C4_amended_descriptor_version_handling_witness :
    validate_file "dandiset.yaml" [] "0.6.0"
        ⟨"dandiset.yaml", ".yaml", .ok [("schemaVersion", .str "0.3.0")],
          .ok (), .ok (), .ok [], .ok [], .ok []⟩
        (some "0.6.0") false
      = .error ("ValueError", "Unsupported schema version: 0.3.0; expected 0.6.0") := by
  rw [C4_amended_descriptor_version_handling.1 "dandiset.yaml" [] "0.6.0"
      ⟨"dandiset.yaml", ".yaml", .ok [("schemaVersion", .str "0.3.0")],
        .ok (), .ok (), .ok [], .ok [], .ok []⟩ (some "0.6.0") false rfl]
  exact C4_amended_descriptor_version_handling.2 "0.6.0" _
    [("schemaVersion", .str "0.3.0")] "0.3.0" false rfl rfl (by decide)

/-- C5 counterexample: in lenient mode (`devel_debug=False`) the batch
halts on the first file: a descriptor whose own `schemaVersion` differs
from the supported version raises `ValueError` out of
`validate_dandiset_yaml` (the raise sits outside every `try` block), the
generator has no handler, and the second file is never validated — no
`(path, problems)` pair is produced for it, refuting "every exception
raised while validating any single file is caught". -/
theorem C5_counterexample :
    validateBatch "dandiset.yaml" [".avi"] "0.6.0" Option.none false
        [("ds/dandiset.yaml",
          ⟨"dandiset.yaml", ".yaml", .ok [("schemaVersion", .str "0.1.0")],
            .ok (), .ok (), .ok [], .ok [], .ok []⟩),
         ("ds/a.nwb",
          ⟨"a.nwb", ".nwb", .ok [], .ok (), .ok (), .ok [], .ok [], .ok []⟩)]
      = .error ("ValueError", "Unsupported schema version: 0.1.0; expected 0.6.0") := by
  rfl

/-- C5 as amended: in lenient mode the validators catch the exceptions
raised inside their guarded model-validation / metadata-extraction
regions, log them, and return them as that file's single-element problem
list, and a batch in which every file's validation returns normally
yields exactly one `(path, problems)` pair per discovered file in order;
but exceptions outside those regions — descriptor reading/parsing
failures and schema-version mismatches — still propagate and halt the
sequence (see the counterexample). -/
theorem C5_amended_lenient_isolation :
    (∀ (currentVersion : String) (env : FileEnv) (e : PyExc),
        env.assetMetadata = .error e →
        ∃ s : String,
          validate_asset_file currentVersion env (some currentVersion) false
            = .ok [s])
    ∧ (∀ (currentVersion : String) (env : FileEnv) (e : PyExc),
        env.legacyMeta = .error e →
        validate_asset_file currentVersion env Option.none false
          = .ok ["Failed to read metadata: " ++ e.2])
    ∧ (∀ (currentVersion : String) (env : FileEnv) (meta : PyDict) (e : PyExc),
        env.yamlMeta = .ok meta →
        PyDict.get meta "schemaVersion" = some (.str currentVersion) →
        env.dandisetModelValidation = .error e →
        ∃ s : String,
          validate_dandiset_yaml currentVersion env Option.none false
            = .ok [s])
    ∧ (∀ (descName : String) (videoExts : List String)
        (currentVersion : String) (sv : Option String) (dbg : Bool)
        (files : List (String × FileEnv)) (l : List (String × List String)),
        validateBatch descName videoExts currentVersion sv dbg files = .ok l →
        l.map Prod.fst = files.map Prod.fst) := by
  refine ⟨?_, ?_, ?_, ?_⟩
  · intro cv env e herr
    by_cases hv : (e.1 == "ValidationError") = true
    · exact ⟨e.2, by simp [validate_asset_file, herr, hv]⟩
    · exact ⟨"Failed to read metadata: " ++ e.2,
        by simp [validate_asset_file, herr, hv]⟩
  · intro cv env e herr
    simp [validate_asset_file, herr]
  · intro cv env meta e hyaml hget herr
    by_cases hv : (e.1 == "ValidationError") = true
    · refine ⟨e.2, ?_⟩
      unfold validate_dandiset_yaml
      rw [hyaml]
      simp [hget, valNeqStr, herr, hv]
    · refine ⟨"Failed to initialize Dandiset meta: " ++ e.2, ?_⟩
      unfold validate_dandiset_yaml
      rw [hyaml]
      simp [hget, valNeqStr, herr, hv]
  · intro descName videoExts cv sv dbg files
    induction files with
    | nil =>
      intro l h
      simp only [validateBatch] at h
      cases h
      rfl
    | cons p rest ih =>
      obtain ⟨pp, penv⟩ := p
      intro l h
      simp only [validateBatch] at h
      cases hvf : validate_file descName videoExts cv penv sv dbg with
      | error e => rw [hvf] at h; cases h
      | ok errs =>
        rw [hvf] at h
        cases hvb : validateBatch descName videoExts cv sv dbg rest with
        | error e => rw [hvb] at h; cases h
        | ok l2 =>
          rw [hvb] at h
          cases h
          simpa using ih l2 hvb

theorem C5_amended_lenient_isolation_witness :
    (∃ s : String, validate_asset_file "0.6.0"
        ⟨"a.nwb", ".nwb", .ok [], .ok (),
          .error ("ValidationError", "bad asset"), .ok [], .ok [], .ok []⟩
        (some "0.6.0") false = .ok [s])
    ∧ validate_asset_file "0.6.0"
        ⟨"a.nwb", ".nwb", .ok [], .ok (), .ok (),
          .error ("OSError", "boom"), .ok [], .ok []⟩
        Option.none false = .ok ["Failed to read metadata: boom"]
    ∧ [("a.nwb",
        ["ok"])].map Prod.fst = [("a.nwb",
        ⟨"a.nwb", ".nwb", .ok [], .ok (), .ok (), .ok [("subject_id", .str "s1")],
          .ok ["ok"], .ok []⟩)].map
        (Prod.fst (α := String) (β := FileEnv)) := by
  refine ⟨C5_amended_lenient_isolation.1 "0.6.0" _ ("ValidationError", "bad asset") rfl,
          C5_amended_lenient_isolation.2.1 "0.6.0" _ ("OSError", "boom") rfl, ?_⟩
  exact C5_amended_lenient_isolation.2.2.2 "dandiset.yaml" [] "0.6.0"
    Option.none false
    [("a.nwb",
      ⟨"a.nwb", ".nwb", .ok [], .ok (), .ok (), .ok [("subject_id", .str "s1")],
        .ok ["ok"], .ok []⟩)] [("a.nwb", ["ok"])] rfl

/-- C1: the `ls` collection loop over path assets always terminates
normally with exactly one emitted record per input asset; an exception of
the cheap stat pass is caught at the per-asset boundary, appending the
asset under the exception's runtime type name in the ledger and setting
the fresh record's `errors` counter to 1 while the record (still
carrying its path) is emitted; `_add_exc_error` always increments the
given record's `errors` counter by exactly 1 and appends the asset's
identifier to the ledger list keyed by the exception type name; and an
exception of the expensive metadata pass inside the closure likewise
lands in the ledger under its type name without escaping. -/
theorem C1_per_asset_failure_isolation :
    (∀ (schema : Option String) (fields : Option (List String))
        (aks : List String) (inputs : List (String × AssetEnv)),
        ∃ recs errs,
          lsCollect schema fields aks
              (inputs.map (fun p => Asset.path p.1 p.2)) [] []
            = .ok (recs, errs) ∧ recs.length = inputs.length)
    ∧ (∀ (fields : Option (List String)) (aks : List String) (asset : String)
        (env : AssetEnv) (errs0 : Ledger) (exc : String),
        sizeRequested fields = true → env.isdir = false →
        env.stat = .error exc →
        processPathAsset fields aks asset env errs0
          = ⟨[("path", .str asset), ("errors", .int 1)],
             ledgerAdd exc (.str asset) errs0, false, false, false⟩)
    ∧ (∀ (asset : Value) (rec : PyDict) (errs : Ledger) (exc : String),
        (_add_exc_error asset rec errs exc).2 = ledgerAdd exc asset errs
        ∧ PyDict.get (_add_exc_error asset rec errs exc).1 "errors"
            = some (.int (errCount rec + 1)))
    ∧ (∀ (kind : String) (a : Value) (led : Ledger),
        ledgerGet (ledgerAdd kind a led) kind = ledgerGet led kind ++ [a])
    ∧ (∀ (path : String) (keys : List String) (flatten : Bool)
        (env : AssetEnv) (errs0 : Ledger) (exc : String),
        keys ≠ ["nwb_version"] → env.meta = .error exc →
        keys.contains "nwb_version" = false →
        (get_metadata_ls_fn path keys flatten env errs0).errors
          = ledgerAdd exc (.str path) errs0) := by
  refine ⟨?_, ?_, ?_, ?_, fn_meta_error_ledger⟩
  · intro schema fields aks inputs
    obtain ⟨recs, errs, heq, hlen⟩ := lsCollect_paths schema fields aks inputs [] []
    exact ⟨recs, errs, heq, by simpa using hlen⟩
  · intro fields aks asset env errs0 exc h1 h2 h3
    simp [processPathAsset, h1, h2, h3, _add_exc_error, errCount,
      PyDict.get, PyDict.set]
  · intro asset rec errs exc
    exact ⟨rfl, PyDict.get_set_self _ _ _⟩
  · intro kind a led
    exact ledgerGet_add_self led kind a

theorem C1_per_asset_failure_isolation_witness :
    processPathAsset Option.none [] "missing.nwb"
        ⟨false, .error "FileNotFoundError", .ok [], .ok .vnone⟩ []
      = ⟨[("path", .str "missing.nwb"), ("errors", .int 1)],
         ledgerAdd "FileNotFoundError" (.str "missing.nwb") [],
         false, false, false⟩
    ∧ (get_metadata_ls_fn "bad.nwb" ["age"] false
        ⟨false, .ok 0, .error "KeyError", .ok .vnone⟩ []).errors
      = ledgerAdd "KeyError" (.str "bad.nwb") [] := by
  exact ⟨C1_per_asset_failure_isolation.2.1 Option.none [] "missing.nwb"
           ⟨false, .error "FileNotFoundError", .ok [], .ok .vnone⟩ []
           "FileNotFoundError" rfl rfl rfl,
         C1_per_asset_failure_isolation.2.2.2.2 "bad.nwb" ["age"] false
           ⟨false, .ok 0, .error "KeyError", .ok .vnone⟩ [] "KeyError"
           (by decide) rfl rfl⟩

/-- C2: the expensive-key set `async_keys` equals the known-field
universe minus the common cheap fields, intersected with the requested
field set when one is given; with an empty expensive-key set the
per-asset step neither builds the `get_metadata_ls` closure nor invokes
any expensive collaborator; the metadata-extraction collaborator runs
only when some expensive key besides a lone `nwb_version` was requested,
`get_nwb_version` runs only when `nwb_version` is among the requested
keys; and every key of the closure's resolved field map is a requested
key (or the `errors` counter added on a failure). -/
theorem C2_expensive_field_selection :
    (∀ (allFields F common : List String) (k : String),
        (k ∈ computeAsyncKeys allFields (some F) common
          ↔ (k ∈ allFields ∧ k ∉ common) ∧ k ∈ F)
        ∧ (k ∈ computeAsyncKeys allFields Option.none common
          ↔ k ∈ allFields ∧ k ∉ common))
    ∧ (∀ (fields : Option (List String)) (asset : String) (env : AssetEnv)
        (errs0 : Ledger),
        (processPathAsset fields [] asset env errs0).cbCreated = false
        ∧ (processPathAsset fields [] asset env errs0).metaCalled = false
        ∧ (processPathAsset fields [] asset env errs0).nwbCalled = false)
    ∧ (∀ (fields : Option (List String)) (aks : List String) (asset : String)
        (env : AssetEnv) (errs0 : Ledger),
        ((processPathAsset fields aks asset env errs0).metaCalled = true →
          aks ≠ [] ∧ aks ≠ ["nwb_version"])
        ∧ ((processPathAsset fields aks asset env errs0).nwbCalled = true →
          "nwb_version" ∈ aks)
        ∧ ((processPathAsset fields aks asset env errs0).cbCreated = true →
          aks ≠ []))
    ∧ (∀ (path : String) (keys : List String) (flatten : Bool)
        (env : AssetEnv) (errs0 : Ledger) (k : String),
        (PyDict.get (get_metadata_ls_fn path keys flatten env errs0).outRec
            k).isSome →
        k ∈ keys ∨ k = "errors") := by
  refine ⟨?_, ?_, ?_, fn_outRec_key_mem⟩
  · intro allFields F common k
    constructor
    · simp only [computeAsyncKeys, List.mem_filter, List.mem_dedup,
        decide_eq_true_eq]
      tauto
    · simp only [computeAsyncKeys, List.mem_filter, List.mem_dedup,
        decide_eq_true_eq]
  · intro fields asset env errs0
    exact processPathAsset_empty_aks fields asset env errs0
  · intro fields aks asset env errs0
    exact ⟨processPathAsset_metaCalled fields aks asset env errs0,
           processPathAsset_nwbCalled fields aks asset env errs0,
           processPathAsset_cbCreated fields aks asset env errs0⟩

theorem C2_expensive_field_selection_witness :
    ("nwb_version" ∈ computeAsyncKeys ["path", "size", "age", "nwb_version"]
        (some ["path", "nwb_version"]) ["path", "size"]
      ↔ (("nwb_version" ∈ ["path", "size", "age", "nwb_version"]
          ∧ "nwb_version" ∉ ["path", "size"])
        ∧ "nwb_version" ∈ ["path", "nwb_version"]))
    ∧ (processPathAsset (some ["path"]) [] "a.nwb"
        ⟨false, .ok 0, .ok [], .ok .vnone⟩ []).metaCalled = false
    ∧ ("age" ∈ ["age"] ∨ "age" = "errors") := by
  refine ⟨(C2_expensive_field_selection.1 ["path", "size", "age", "nwb_version"]
      ["path", "nwb_version"] ["path", "size"] "nwb_version").1,
    (C2_expensive_field_selection.2.1 (some ["path"]) "a.nwb"
      ⟨false, .ok 0, .ok [], .ok .vnone⟩ []).2.1, ?_⟩
  exact C2_expensive_field_selection.2.2.2 "x.nwb" ["age"] false
    ⟨false, .ok 0, .ok [("age", .int 3)], .ok .vnone⟩ [] "age" rfl

theorem cacheLookup_store_self (c : ValidationCache) (path : String)
    (m : Int) (res : List String) :
    cacheLookup (cacheStore c path m res) path = some (m, res) := by
  unfold cacheLookup cacheStore
  rw [List.find?_append]
  have hnone : (c.entries.filter (fun e => e.1 != path)).find?
      (fun e => e.1 == path) = Option.none := by
    rw [List.find?_eq_none]
    intro x hx
    have hne := (List.mem_filter.mp hx).2
    simpa using hne
  rw [hnone]
  simp

theorem memoizedValidate_hit (compute : String → List String)
    (mtime : String → Int) (c : ValidationCache) (path : String)
    (res : List String) (hl : cacheLookup c path = some (mtime path, res)) :
    memoizedValidate compute mtime c path = (res, c, false) := by
  unfold memoizedValidate
  rw [hl]
  simp

theorem memoizedValidate_miss (compute : String → List String)
    (mtime : String → Int) (c : ValidationCache) (path : String)
    (t : Int) (res : List String) (hl : cacheLookup c path = some (t, res))
    (ht : t ≠ mtime path) :
    memoizedValidate compute mtime c path
      = (compute path, cacheStore c path (mtime path) (compute path), true) := by
  unfold memoizedValidate
  rw [hl]
  simp [ht]

theorem memoized_lookup_after (compute : String → List String)
    (mtime : String → Int) (c0 : ValidationCache) (path : String) :
    cacheLookup (memoizedValidate compute mtime c0 path).2.1 path
      = some (mtime path, (memoizedValidate compute mtime c0 path).1) := by
  unfold memoizedValidate
  cases hl : cacheLookup c0 path with
  | none => simp [cacheLookup_store_self]
  | some tr =>
    obtain ⟨t, res⟩ := tr
    by_cases ht : t = mtime path
    · subst ht
      simp [hl]
    · have hb : (t == mtime path) = false := beq_eq_false_iff_ne.mpr ht
      simp [hb, cacheLookup_store_self]

/-- C9 counterexample: a path asset whose record after all processing
contains just the identifier (`{"path": "sub-01.nwb"}`) is emitted
normally and the ledger stays empty — no `"Empty record"` entry is made,
because the source's check `if not rec:` fires only on a completely
empty record and a path record always contains its `path` key. -/
theorem C9_counterexample :
    lsCollect Option.none (some ["path"]) []
        [Asset.path "sub-01.nwb" ⟨false, .ok 0, .ok [], .ok .vnone⟩] [] []
      = .ok ([[("path", .str "sub-01.nwb")]], []) := by
  rfl

/-- C9 as amended: the `"Empty record"` condition applies only to a
record with no content at all — such a record is recorded in the ledger
under `"Empty record"` and skipped from the output rather than silently
dropped; a path asset's record always contains at least its `path`
identifier (preserved whenever the expensive keys exclude `"path"`, as
the computed `async_keys` always do) and is therefore always emitted,
never ledgered as empty. -/
theorem C9_amended_empty_record_reporting :
    (∀ (fields : Option (List String)) (aks : List String) (asset : String)
        (env : AssetEnv) (errs0 : Ledger),
        (processPathAsset fields aks asset env errs0).outRec.isEmpty = false)
    ∧ (∀ (fields : Option (List String)) (aks : List String) (asset : String)
        (env : AssetEnv) (errs0 : Ledger),
        "path" ∉ aks →
        PyDict.get (processPathAsset fields aks asset env errs0).outRec "path"
          = some (.str asset))
    ∧ (∀ (schema : Option String) (fields : Option (List String))
        (aks : List String) (r : PyDict) (rest : List Asset)
        (recs : List PyDict) (errs : Ledger),
        schemaMismatch schema r = false → r.isEmpty = true →
        lsCollect schema fields aks (Asset.record r :: rest) recs errs
          = lsCollect schema fields aks rest recs
              (ledgerAdd "Empty record" (.dict r) errs)) := by
  refine ⟨processPathAsset_outRec_ne_nil, processPathAsset_path_get, ?_⟩
  intro schema fields aks r rest recs errs hmm hemp
  simp [lsCollect, hmm, hemp]

theorem C9_amended_empty_record_reporting_witness :
    PyDict.get (processPathAsset Option.none ["age"] "f.nwb"
        ⟨false, .ok 5, .ok [], .ok .vnone⟩ []).outRec "path"
      = some (.str "f.nwb")
    ∧ lsCollect Option.none Option.none [] [Asset.record []] [] []
      = lsCollect Option.none Option.none [] [] []
          (ledgerAdd "Empty record" (.dict []) []) := by
  exact ⟨C9_amended_empty_record_reporting.2.1 Option.none ["age"] "f.nwb"
           ⟨false, .ok 5, .ok [], .ok .vnone⟩ [] (by decide),
         C9_amended_empty_record_reporting.2.2 Option.none Option.none []
           [] [] [] [] rfl rfl⟩

/-- C10 (modelled from the spec, since `validate_cache.memoize_path`
lives in `dandi/pynwb_utils.py`, outside the provided sources): the
memoized validators are cached per (path, modification timestamp) —
calling again while the file's timestamp is unchanged returns the
identical result with no recomputation of the underlying validator and
leaves the cache untouched, while a changed timestamp forces exactly one
recomputation on the next call, whose result replaces the cache
entry. -/
theorem C10_cache_memoization :
    (∀ (compute : String → List String) (mtime : String → Int)
        (c0 : ValidationCache) (path : String),
        memoizedValidate compute mtime
            (memoizedValidate compute mtime c0 path).2.1 path
          = ((memoizedValidate compute mtime c0 path).1,
             (memoizedValidate compute mtime c0 path).2.1, false))
    ∧ (∀ (compute : String → List String) (mtime1 mtime2 : String → Int)
        (c0 : ValidationCache) (path : String),
        mtime2 path ≠ mtime1 path →
        memoizedValidate compute mtime2
            (memoizedValidate compute mtime1 c0 path).2.1 path
          = (compute path,
             cacheStore (memoizedValidate compute mtime1 c0 path).2.1 path
               (mtime2 path) (compute path), true)) := by
  constructor
  · intro compute mtime c0 path
    exact memoizedValidate_hit compute mtime _ path _
      (memoized_lookup_after compute mtime c0 path)
  · intro compute m1 m2 c0 path hne
    exact memoizedValidate_miss compute m2 _ path (m1 path) _
      (memoized_lookup_after compute m1 c0 path) (Ne.symm hne)

theorem C10_cache_memoization_witness :
    memoizedValidate (fun _ => ["p1"]) (fun _ => 0)
        (memoizedValidate (fun _ => ["p1"]) (fun _ => 0) ⟨[]⟩ "d.nwb").2.1
        "d.nwb"
      = (["p1"],
         (memoizedValidate (fun _ => ["p1"]) (fun _ => 0) ⟨[]⟩ "d.nwb").2.1,
         false)
    ∧ memoizedValidate (fun _ => ["p1"]) (fun _ => 1)
        (memoizedValidate (fun _ => ["p1"]) (fun _ => 0) ⟨[]⟩ "d.nwb").2.1
        "d.nwb"
      = (["p1"],
         cacheStore
           (memoizedValidate (fun _ => ["p1"]) (fun _ => 0) ⟨[]⟩ "d.nwb").2.1
           "d.nwb" 1 ["p1"], true) := by
  exact ⟨C10_cache_memoization.1 (fun _ => ["p1"]) (fun _ => 0) ⟨[]⟩ "d.nwb",
         C10_cache_memoization.2 (fun _ => ["p1"]) (fun _ => 0) (fun _ => 1)
           ⟨[]⟩ "d.nwb" (by decide)⟩
